import Mathlib

/-!
# RTCP feedback packet codec (FIR / RPSI) — shallow embedding

This file embeds the RTCP feedback-packet codec of the repository:
`Fir::Parse` / `Fir::Create` (from
`webrtc/modules/rtp_rtcp/source/rtcp_packet/fir.cc`) and the RPSI codec
(whose implementation file is absent from the excerpt; it is modelled
from the specification, and cross-checked against the golden packets of
`rpsi_unittest.cc`).

Bytes are modelled as natural numbers (each in `[0, 256)` on well-formed
data); byte buffers are `List Nat`.  Truncation to a byte is explicit
(`% 256`) wherever the C++ narrows a wider value.  Fallible operations
return `Option`; an `RTC_CHECK`/`RTC_DCHECK` contract violation (a crash
in the C++) is modelled as `none`, while a recoverable parse failure of
`Fir::Parse` is the value `some (self, false)` mirroring the C++
`return false` that leaves the object `self` as it was.
-/

namespace Rtcp

/-- Big-endian byte decomposition of a 32-bit value
(`ByteWriter<uint32_t>::WriteBigEndian`). -/
def u32be (v : Nat) : List Nat :=
  [v / 2 ^ 24 % 256, v / 2 ^ 16 % 256, v / 2 ^ 8 % 256, v % 256]

/-- Big-endian 32-bit read at offset `pos`
(`ByteReader<uint32_t>::ReadBigEndian`). -/
def readU32 (buf : List Nat) (pos : Nat) : Nat :=
  buf.getD pos 0 * 2 ^ 24 + buf.getD (pos + 1) 0 * 2 ^ 16 +
    buf.getD (pos + 2) 0 * 2 ^ 8 + buf.getD (pos + 3) 0

/-- Overwrite `data` into `buf` starting at `pos` (raw pointer writes of
the C++ build path; writes past the end of `buf` are dropped, which never
happens on the in-contract uses below). -/
def writeBytes (buf : List Nat) (pos : Nat) (data : List Nat) : List Nat :=
  match data with
  | [] => buf
  | b :: rest => writeBytes (buf.set pos b) (pos + 1) rest

/-- `RTCPUtility::RtcpCommonHeader`: the parsed 4-byte RTCP common header. -/
structure RtcpCommonHeader where
  version : Nat
  has_padding : Bool
  count_or_format : Nat
  packet_type : Nat
  payload_size_bytes : Nat
  deriving DecidableEq, Repr

/-- Modelled from the spec: `RtcpParseCommonHeader` (its implementation is
not in the excerpt).  Fails if fewer than 4 bytes are available, if the
version field is not 2, or if the declared length implies a payload longer
than the remaining buffer; `payload_size_bytes = (length_words + 1) * 4 - 4`. -/
def parseCommonHeader (bytes : List Nat) : Option RtcpCommonHeader :=
  if bytes.length < 4 then none
  else
    let b0 := bytes.getD 0 0
    let lengthWords := bytes.getD 2 0 * 256 + bytes.getD 3 0
    let payloadSize := (lengthWords + 1) * 4 - 4
    if b0 / 64 ≠ 2 then none
    else if bytes.length < 4 + payloadSize then none
    else some ⟨2, b0 / 32 % 2 = 1, b0 % 32, bytes.getD 1 0, payloadSize⟩

/-- The 8-byte common-feedback prefix length (`kCommonFeedbackLength`). -/
def kCommonFeedbackLength : Nat := 8

/-- One FIR FCI entry is 8 bytes (`Fir::kFciLength`). -/
def kFciLength : Nat := 8

/-- The 4-byte RTCP common header length (`RtcpPacket::kHeaderLength`). -/
def kHeaderLength : Nat := 4

/-- Modelled from the spec: the FIR packet type constant (`Fir::kPacketType`,
declared in a header file absent from the excerpt); the spec's golden FIR
wire bytes use packet-type byte 205. -/
def kFirPacketType : Nat := 205

/-- Modelled from the spec: the FIR feedback message type
(`Fir::kFeedbackMessageType`), the format field 4 of the golden bytes. -/
def kFirFeedbackMessageType : Nat := 4

/-- One FIR request (`Fir::Request`): a media-source SSRC and a command
sequence number. -/
structure FirRequest where
  ssrc : Nat
  seq_nr : Nat
  deriving DecidableEq, Repr

/-- The `Fir` packet object: sender SSRC, media SSRC (always 0 for FIR)
and the ordered request list `items_`. -/
structure Fir where
  sender_ssrc : Nat
  media_ssrc : Nat
  items : List FirRequest
  deriving DecidableEq, Repr

/-- The C++ loop of `Fir::Parse` reading `n` fixed 8-byte FCI records
starting at `pos`: 4 bytes SSRC, 1 byte sequence number, 3 reserved bytes
skipped (`next_fci` advances by `kFciLength`). -/
def readFci (payload : List Nat) : Nat → Nat → List FirRequest
  | 0, _ => []
  | n + 1, pos =>
      ⟨readU32 payload pos, payload.getD (pos + 4) 0⟩ ::
        readFci payload n (pos + kFciLength)

/-- `Fir::Parse` from `fir.cc`.  The two `RTC_CHECK`s on packet type and
format are contract assertions (crash = `none`); the two length
validations return `false` leaving the object untouched; on success the
common-feedback prefix and the FCI records are decoded
(`ParseCommonFeedback` is modelled from the spec: the first 8 payload
bytes are sender SSRC then media SSRC, big-endian, no failure mode). -/
def Fir.Parse (self : Fir) (header : RtcpCommonHeader) (payload : List Nat) :
    Option (Fir × Bool) :=
  if header.packet_type ≠ kFirPacketType then none
  else if header.count_or_format ≠ kFirFeedbackMessageType then none
  else if header.payload_size_bytes < kCommonFeedbackLength + kFciLength then
    some (self, false)
  else if (header.payload_size_bytes - kCommonFeedbackLength) % kFciLength ≠ 0 then
    some (self, false)
  else
    let n := (header.payload_size_bytes - kCommonFeedbackLength) / kFciLength
    some ({ sender_ssrc := readU32 payload 0,
            media_ssrc := readU32 payload 4,
            items := readFci payload n kCommonFeedbackLength }, true)

/-- `RtcpPacket::BlockLength` for FIR: header, common feedback, then one
fixed slot per request. -/
def Fir.BlockLength (f : Fir) : Nat :=
  kHeaderLength + kCommonFeedbackLength + kFciLength * f.items.length

/-- `RtcpPacket::HeaderLength`: the length field in 32-bit words minus one. -/
def Fir.HeaderLength (f : Fir) : Nat := f.BlockLength / 4 - 1

/-- The buffer state threaded through `Fir::Create`: the caller's buffer,
the write cursor `*index`, and the list of buffers already handed to the
sink (each a complete flushed prefix). -/
structure BufState where
  buf : List Nat
  index : Nat
  flushed : List (List Nat)
  deriving DecidableEq, Repr

/-- The `while (*index + BlockLength() > max_length)` loop of
`Fir::Create`.  `RtcpPacket::OnBufferFull` is modelled from the spec:
invoke the sink with the bytes written so far `[0, cursor)`, then reset
the cursor to 0; a sink failure fails the whole call.  The C++ loop has
no intrinsic bound (an always-succeeding sink with an oversized block
loops forever), so the model takes fuel; `none` is non-termination or
fuel exhaustion, `some (false, st)` is the C++ `return false`. -/
def flushLoop (blockLength maxLength : Nat) (sink : List Nat → Bool) :
    Nat → BufState → Option (Bool × BufState)
  | 0, _ => none
  | fuel + 1, st =>
      if st.index + blockLength > maxLength then
        if sink (st.buf.take st.index) then
          flushLoop blockLength maxLength sink fuel
            ⟨st.buf, 0, st.flushed ++ [st.buf.take st.index]⟩
        else some (false, st)
      else some (true, st)

/-- The 8 wire bytes of one FIR FCI record: SSRC big-endian, sequence
number, three reserved zero bytes. -/
def fciBytes (r : FirRequest) : List Nat :=
  u32be r.ssrc ++ [r.seq_nr % 256, 0, 0, 0]

/-- The concatenated FCI records of a request list. -/
def fciBlock : List FirRequest → List Nat
  | [] => []
  | r :: rest => fciBytes r ++ fciBlock rest

/-- The write loop of `Fir::Create`: each request writes its SSRC
big-endian, its sequence number, and three reserved zero bytes, then
advances the cursor by `kFciLength`. -/
def writeFci : List FirRequest → List Nat → Nat → List Nat × Nat
  | [], buf, index => (buf, index)
  | r :: rest, buf, index =>
      writeFci rest (writeBytes buf index (fciBytes r)) (index + kFciLength)

/-- The write phase of `Fir::Create`, entered once the block fits:
`CreateHeader` (4 bytes, cursor += 4), `CreateCommonFeedback` (8 bytes,
cursor += 8), then the FCI records; the final
`RTC_CHECK_EQ(*index, index_end)` is a contract assertion modelled as
`none`. -/
def Fir.CreateWrite (f : Fir) (st1 : BufState) : Option (Bool × BufState) :=
  let indexEnd := st1.index + f.BlockLength
  let buf2 := writeBytes st1.buf st1.index
    [128 + kFirFeedbackMessageType, kFirPacketType,
     f.HeaderLength / 256 % 256, f.HeaderLength % 256]
  let buf3 := writeBytes buf2 (st1.index + kHeaderLength)
    (u32be f.sender_ssrc ++ u32be f.media_ssrc)
  let out := writeFci f.items buf3
    (st1.index + kHeaderLength + kCommonFeedbackLength)
  if out.2 = indexEnd then some (true, ⟨out.1, out.2, st1.flushed⟩)
  else none

/-- `Fir::Create` from `fir.cc`.  The `RTC_DCHECK`s (non-empty request
list, media SSRC zero) are contract assertions modelled as `none`;
`CreateHeader` and `CreateCommonFeedback` are modelled from the spec: a
4-byte header (version 2, no padding, format, packet type, 16-bit length
in words) and the 8-byte sender/media SSRC prefix. -/
def Fir.Create (f : Fir) (st : BufState) (maxLength : Nat)
    (sink : List Nat → Bool) (fuel : Nat) : Option (Bool × BufState) :=
  if f.items = [] then none
  else if f.media_ssrc ≠ 0 then none
  else
    match flushLoop f.BlockLength maxLength sink fuel st with
    | none => none
    | some (false, st1) => some (false, st1)
    | some (true, st1) => f.CreateWrite st1

/-- Serialize a FIR packet to wire bytes by running `Fir::Create` on a
fresh zeroed buffer exactly one block long (no flush needed, so the sink
is never consulted). -/
def firBuildBytes (f : Fir) : List Nat :=
  match f.Create ⟨List.replicate f.BlockLength 0, 0, []⟩ f.BlockLength
      (fun _ => false) 1 with
  | some (true, st) => st.buf
  | _ => []

/-- Parse a single FIR packet from a complete wire-byte slice: common
header first, then `Fir::Parse` on the payload; the header invariant that
the declared payload exactly fills the slice is enforced. -/
def firParseBytes (bytes : List Nat) : Option Fir :=
  match parseCommonHeader bytes with
  | none => none
  | some header =>
      if 4 + header.payload_size_bytes = bytes.length then
        match Fir.Parse ⟨0, 0, []⟩ header (bytes.drop 4) with
        | some (f, true) => some f
        | _ => none
      else none

/-- The `Rpsi` packet value: sender SSRC, media SSRC, the 7-bit RTP
payload type, and the picture id carried by the native string. -/
structure Rpsi where
  sender_ssrc : Nat
  media_ssrc : Nat
  payload_type : Nat
  picture_id : Nat
  deriving DecidableEq, Repr

/-- Significant-bit length of a natural number, computed with explicit
fuel so that it reduces by kernel evaluation (`bitLenAux fuel n` is exact
whenever `n ≤ fuel`). -/
def bitLenAux : Nat → Nat → Nat
  | 0, _ => 0
  | fuel + 1, n => if n = 0 then 0 else bitLenAux fuel (n / 2) + 1

/-- `bit_length(n)`: the number of significant binary digits of `n`
(0 for 0). -/
def bitLen (n : Nat) : Nat := bitLenAux n n

/-- Modelled from the spec: the number `g` of 7-bit groups of the RPSI
native string, `max(1, ceil(bit_length(picture_id) / 7))` (a value of 0
still uses one group). -/
def rpsiGroupCount (pictureId : Nat) : Nat :=
  max 1 ((bitLen pictureId + 6) / 7)

/-- The `g` bytes holding the 7-bit groups of `pictureId`,
most-significant group first (group `j`, counting from the least
significant, is `pictureId / 2^(7 j) % 128`), continuation bit set on
every byte but the last. -/
def rpsiGroups : Nat → Nat → List Nat
  | 0, _ => []
  | 1, pictureId => [pictureId % 128]
  | g + 2, pictureId =>
      (128 + pictureId / 2 ^ (7 * (g + 1)) % 128) ::
        rpsiGroups (g + 1) pictureId

/-- Modelled from the spec: the RPSI native string, `g` bytes, 7-bit
groups most-significant first, continuation bit set on every byte but the
last (`Rpsi::Build`'s encoder; `rpsi.cc` is absent from the excerpt). -/
def rpsiNativeString (pictureId : Nat) : List Nat :=
  rpsiGroups (rpsiGroupCount pictureId) pictureId

/-- Modelled from the spec: the number of zero padding bytes appended by
`Rpsi::Build`, the smallest value making `2 + g + padding_bytes`
divisible by 4. -/
def rpsiPaddingBytes (pictureId : Nat) : Nat :=
  (4 - (2 + rpsiGroupCount pictureId) % 4) % 4

/-- Modelled from the spec: `Rpsi::Build` serialized to wire bytes —
common header (version 2, format 3, packet type 206, length in words),
sender/media SSRC, the padding-bit-count byte, the payload-type byte, the
native string, then the zero padding bytes. -/
def rpsiBuildBytes (senderSsrc mediaSsrc payloadType pictureId : Nat) :
    List Nat :=
  let ns := rpsiNativeString pictureId
  let padBytes := rpsiPaddingBytes pictureId
  let lengthWords := (4 + 8 + 2 + ns.length + padBytes) / 4 - 1
  [128 + 3, 206, lengthWords / 256 % 256, lengthWords % 256] ++
    u32be senderSsrc ++ u32be mediaSsrc ++
    [8 * padBytes, payloadType % 256] ++ ns ++ List.replicate padBytes 0

/-- Modelled from the spec: the native-string decoder of `Rpsi::Parse` —
accumulate 7-bit groups most-significant first, stop at the first byte
with a clear top bit; fail if no terminator is found within the content
bytes or if bytes remain after the terminator. -/
def decodeNativeString (acc : Nat) : List Nat → Option Nat
  | [] => none
  | b :: rest =>
      if b < 128 then
        if rest = [] then some (acc * 128 + b) else none
      else decodeNativeString (acc * 128 + (b - 128)) rest

/-- Modelled from the spec: `Rpsi::Parse` on a header and payload slice.
Reject if the payload is shorter than prefix plus the two fixed bytes;
reject (`InvalidPadding`) a padding-bit count that is not a multiple of
8; reject (`InvalidLength`) when the content-byte count
`payload_size_bytes - 8 - 2 - padding_bits/8` is zero or negative or when
`padding_bits/8` exceeds 3; then decode exactly the content bytes as the
native string. -/
def rpsiParse (header : RtcpCommonHeader) (payload : List Nat) :
    Option Rpsi :=
  if header.payload_size_bytes < kCommonFeedbackLength + 2 then none
  else
    let paddingBits := payload.getD 8 0
    if paddingBits % 8 ≠ 0 then none
    else
      let paddingBytes := paddingBits / 8
      if header.payload_size_bytes ≤ kCommonFeedbackLength + 2 + paddingBytes then
        none
      else if 3 < paddingBytes then none
      else
        let contentBytes :=
          header.payload_size_bytes - kCommonFeedbackLength - 2 - paddingBytes
        match decodeNativeString 0 ((payload.drop 10).take contentBytes) with
        | none => none
        | some pid =>
            some ⟨readU32 payload 0, readU32 payload 4, payload.getD 9 0, pid⟩

/-- Parse a single RPSI packet from a complete wire-byte slice: common
header first (with the exact-fill invariant of single-packet parsing),
then `Rpsi::Parse` on the payload. -/
def rpsiParseBytes (bytes : List Nat) : Option Rpsi :=
  match parseCommonHeader bytes with
  | none => none
  | some header =>
      if 4 + header.payload_size_bytes = bytes.length then
        rpsiParse header (bytes.drop 4)
      else none

/-- The native-string byte count that a raw built RPSI packet devotes to
the picture id, recovered from the packet's own length and padding fields
(the unit tests' `UsedBytes` helper): total FCI bytes after the two fixed
bytes, minus the padding bytes. -/
def rpsiUsedBytes (bytes : List Nat) : Nat :=
  4 * (bytes.getD 2 0 * 256 + bytes.getD 3 0) - 10 - bytes.getD 12 0 / 8

/-! ## Supporting lemmas -/

/-- `bitLenAux` computes `Nat.size` whenever given enough fuel. -/
theorem bitLenAux_eq_size : ∀ fuel n, n ≤ fuel → bitLenAux fuel n = Nat.size n := by
  intro fuel
  induction fuel with
  | zero =>
      intro n hn
      interval_cases n
      simp [bitLenAux, Nat.size_zero]
  | succ fuel ih =>
      intro n hn
      by_cases h0 : n = 0
      · simp [bitLenAux, h0, Nat.size_zero]
      · have hrec : bitLenAux (fuel + 1) n = bitLenAux fuel (n / 2) + 1 := by
          simp [bitLenAux, h0]
        have hdiv : n / 2 ≤ fuel := by omega
        rw [hrec, ih (n / 2) hdiv]
        conv_rhs => rw [← Nat.bit_decomp n]
        rw [Nat.size_bit (by rwa [Nat.bit_decomp])]
        simp [Nat.div2_val]

/-- `bitLen` is the standard binary length. -/
theorem bitLen_eq_size (n : Nat) : bitLen n = Nat.size n :=
  bitLenAux_eq_size n n le_rfl

/-- Recombining the four big-endian bytes of a 32-bit value. -/
theorem u32be_recombine (v : Nat) (h : v < 2 ^ 32) :
    v / 2 ^ 24 % 256 * 2 ^ 24 + v / 2 ^ 16 % 256 * 2 ^ 16 +
      v / 2 ^ 8 % 256 * 2 ^ 8 + v % 256 = v := by
  omega

/-- Reading past a known-length prefix of an appended buffer. -/
theorem getD_append_len (pre l : List Nat) (k : Nat) :
    (pre ++ l).getD (pre.length + k) 0 = l.getD k 0 := by
  rw [List.getD_append_right pre l 0 (pre.length + k) (Nat.le_add_right _ _)]
  simp

/-- Writing into the tail commutes with a fixed head cell. -/
theorem writeBytes_cons (x : Nat) (buf data : List Nat) (pos : Nat) :
    writeBytes (x :: buf) (pos + 1) data = x :: writeBytes buf pos data := by
  induction data generalizing buf pos with
  | nil => rfl
  | cons b rest ih =>
      show writeBytes ((x :: buf).set (pos + 1) b) (pos + 1 + 1) rest = _
      rw [List.set_cons_succ, ih]
      rfl

/-- Writing a buffer-filling chunk at offset 0 replaces the buffer. -/
theorem writeBytes_full : ∀ (data buf : List Nat), buf.length = data.length →
    writeBytes buf 0 data = data := by
  intro data
  induction data with
  | nil =>
      intro buf h
      cases buf with
      | nil => rfl
      | cons c cs => simp at h
  | cons b rest ih =>
      intro buf h
      cases buf with
      | nil => simp at h
      | cons c cs =>
          show writeBytes ((c :: cs).set 0 b) (0 + 1) rest = b :: rest
          show writeBytes (b :: cs) (0 + 1) rest = b :: rest
          rw [writeBytes_cons]
          rw [ih cs (by simpa using h)]

/-- Consecutive writes concatenate. -/
theorem writeBytes_append (a b : List Nat) (buf : List Nat) (pos : Nat) :
    writeBytes buf pos (a ++ b) =
      writeBytes (writeBytes buf pos a) (pos + a.length) b := by
  induction a generalizing buf pos with
  | nil => simp [writeBytes]
  | cons x rest ih =>
      show writeBytes (buf.set pos x) (pos + 1) (rest ++ b) = _
      rw [ih]
      show _ = writeBytes (writeBytes (buf.set pos x) (pos + 1) rest)
        (pos + (rest.length + 1)) b
      congr 1
      omega

/-- A continuation byte steps the decoder. -/
theorem decodeNativeString_cons_cont (acc b : Nat) (l : List Nat)
    (hb : ¬ b < 128) :
    decodeNativeString acc (b :: l) =
      decodeNativeString (acc * 128 + (b - 128)) l := by
  cases l <;> simp [decodeNativeString, hb]

/-- A lone terminator byte ends the decoder. -/
theorem decodeNativeString_singleton (acc b : Nat) (hb : b < 128) :
    decodeNativeString acc [b] = some (acc * 128 + b) := by
  simp [decodeNativeString, hb]

/-- The native-string decoder inverts the group encoder (the groups only
carry `pid` modulo `2 ^ (7 g)`). -/
theorem decodeNativeString_rpsiGroups :
    ∀ g, 0 < g → ∀ acc pid,
      decodeNativeString acc (rpsiGroups g pid) =
        some (acc * 2 ^ (7 * g) + pid % 2 ^ (7 * g)) := by
  intro g
  induction g with
  | zero => omega
  | succ g ih =>
      intro _ acc pid
      match g, ih with
      | 0, _ =>
          rw [show rpsiGroups 1 pid = [pid % 128] from rfl,
            decodeNativeString_singleton acc (pid % 128) (by omega)]
          norm_num
      | g + 1, ih =>
          rw [show rpsiGroups (g + 2) pid =
              (128 + pid / 2 ^ (7 * (g + 1)) % 128) ::
                rpsiGroups (g + 1) pid from rfl]
          rw [decodeNativeString_cons_cont _ _ _ (by omega)]
          rw [ih (by omega)]
          simp only [Option.some.injEq]
          have hstep : 128 + pid / 2 ^ (7 * (g + 1)) % 128 - 128 =
              pid / 2 ^ (7 * (g + 1)) % 128 := by omega
          rw [hstep]
          have hmul : pid % 2 ^ (7 * (g + 2)) =
              pid % 2 ^ (7 * (g + 1)) +
                2 ^ (7 * (g + 1)) * (pid / 2 ^ (7 * (g + 1)) % 128) := by
            have h128 : 2 ^ (7 * (g + 2)) = 2 ^ (7 * (g + 1)) * 128 := by
              rw [show 7 * (g + 2) = 7 * (g + 1) + 7 by ring, pow_add]
              norm_num
            rw [h128, Nat.mod_mul]
          rw [hmul]
          ring

/-- The group count covers the picture id: `pid < 2 ^ (7 g)`. -/
theorem pid_lt_pow_groupCount (pid : Nat) :
    pid < 2 ^ (7 * rpsiGroupCount pid) := by
  have hsize : pid < 2 ^ Nat.size pid := Nat.lt_size_self pid
  have hbl : bitLen pid = Nat.size pid := bitLen_eq_size pid
  have hle : Nat.size pid ≤ 7 * rpsiGroupCount pid := by
    unfold rpsiGroupCount
    rw [hbl] at *
    have := Nat.le_max_right 1 ((Nat.size pid + 6) / 7)
    have h7 : Nat.size pid ≤ 7 * ((Nat.size pid + 6) / 7) := by omega
    calc Nat.size pid ≤ 7 * ((Nat.size pid + 6) / 7) := h7
      _ ≤ 7 * max 1 ((Nat.size pid + 6) / 7) := by
          exact Nat.mul_le_mul_left 7 (Nat.le_max_right _ _)
  calc pid < 2 ^ Nat.size pid := hsize
    _ ≤ 2 ^ (7 * rpsiGroupCount pid) := Nat.pow_le_pow_right (by norm_num) hle

/-- The decoder recovers the picture id from the native string. -/
theorem decodeNativeString_nativeString (pid : Nat) :
    decodeNativeString 0 (rpsiNativeString pid) = some pid := by
  unfold rpsiNativeString
  rw [decodeNativeString_rpsiGroups (rpsiGroupCount pid)
    (by unfold rpsiGroupCount; omega) 0 pid]
  rw [Nat.mod_eq_of_lt (pid_lt_pow_groupCount pid)]
  simp

/-- The group encoding has exactly `g` bytes. -/
theorem rpsiGroups_length : ∀ g pid, (rpsiGroups g pid).length = g := by
  intro g
  induction g with
  | zero => intro pid; rfl
  | succ g ih =>
      intro pid
      match g, ih with
      | 0, _ => rfl
      | g + 1, ih => simp [rpsiGroups, ih pid]

/-- The native string has exactly `g` bytes. -/
theorem rpsiNativeString_length (pid : Nat) :
    (rpsiNativeString pid).length = rpsiGroupCount pid := by
  unfold rpsiNativeString
  exact rpsiGroups_length _ _

/-- Layout of a built RPSI packet as an explicit concatenation. -/
theorem rpsiBuildBytes_eq (s m pt pid : Nat) :
    rpsiBuildBytes s m pt pid =
      [128 + 3, 206,
        ((4 + 8 + 2 + (rpsiNativeString pid).length + rpsiPaddingBytes pid)
            / 4 - 1) / 256 % 256,
        ((4 + 8 + 2 + (rpsiNativeString pid).length + rpsiPaddingBytes pid)
            / 4 - 1) % 256] ++
      u32be s ++ u32be m ++ [8 * rpsiPaddingBytes pid, pt % 256] ++
      rpsiNativeString pid ++ List.replicate (rpsiPaddingBytes pid) 0 :=
  rfl

/-- Parsing a built RPSI packet recovers every field. -/
theorem rpsiParseBytes_build (s m pt pid : Nat) (hs : s < 2 ^ 32)
    (hm : m < 2 ^ 32) (hpt : pt < 128) (hgb : rpsiGroupCount pid ≤ 16000) :
    rpsiParseBytes (rpsiBuildBytes s m pt pid) = some ⟨s, m, pt, pid⟩ := by
  have hg1 : 1 ≤ rpsiGroupCount pid := by
    unfold rpsiGroupCount
    omega
  have hpb3 : rpsiPaddingBytes pid ≤ 3 := by
    unfold rpsiPaddingBytes
    omega
  have hpb4 : (2 + rpsiGroupCount pid + rpsiPaddingBytes pid) % 4 = 0 := by
    unfold rpsiPaddingBytes
    omega
  have hdec : decodeNativeString 0 (rpsiNativeString pid) = some pid :=
    decodeNativeString_nativeString pid
  have hL : (rpsiNativeString pid).length = rpsiGroupCount pid :=
    rpsiNativeString_length pid
  rw [rpsiBuildBytes_eq]
  generalize hLdef : rpsiNativeString pid = L at hdec hL ⊢
  generalize hpbdef : rpsiPaddingBytes pid = pb at hpb3 hpb4 ⊢
  generalize hgdef : rpsiGroupCount pid = g at hg1 hgb hpb4 hL
  rw [hL]
  have hlwlt : (4 + 8 + 2 + g + pb) / 4 - 1 < 65536 := by omega
  have hb23 : ((4 + 8 + 2 + g + pb) / 4 - 1) / 256 % 256 * 256 +
      ((4 + 8 + 2 + g + pb) / 4 - 1) % 256 = (4 + 8 + 2 + g + pb) / 4 - 1 := by
    omega
  have hps : ((4 + 8 + 2 + g + pb) / 4 - 1 + 1) * 4 - 4 = 10 + g + pb := by
    omega
  have hhdr : parseCommonHeader
      ([128 + 3, 206,
        ((4 + 8 + 2 + g + pb) / 4 - 1) / 256 % 256,
        ((4 + 8 + 2 + g + pb) / 4 - 1) % 256] ++
        u32be s ++ u32be m ++ [8 * pb, pt % 256] ++ L ++
        List.replicate pb 0) =
      some ⟨2, false, 3, 206, 10 + g + pb⟩ := by
    unfold parseCommonHeader
    simp only [u32be, List.cons_append, List.nil_append, List.length_cons,
      List.length_append, List.length_replicate, List.getD_cons_zero,
      List.getD_cons_succ, hL]
    rw [hb23, hps]
    split_ifs with h1 h2 h3
    · omega
    · norm_num at h2
    · omega
    · norm_num
  unfold rpsiParseBytes
  rw [hhdr]
  simp only [u32be, List.cons_append, List.nil_append, List.length_cons,
    List.length_append, List.length_replicate, hL]
  rw [if_pos (by omega)]
  unfold rpsiParse
  simp only [kCommonFeedbackLength, List.getD_cons_zero, List.getD_cons_succ,
    List.drop_succ_cons, List.drop_zero]
  rw [if_neg (by omega)]
  rw [if_neg (by push_neg; omega)]
  rw [if_neg (by omega)]
  rw [if_neg (by omega)]
  have htake : (8 * pb / 8) = pb := by omega
  have hcontent : 10 + g + pb - 8 - 2 - 8 * pb / 8 = g := by omega
  rw [hcontent]
  have hLfull : (L ++ List.replicate pb 0).take g = L := by
    rw [← hL]
    exact List.take_left L _
  rw [hLfull, hdec]
  unfold readU32
  simp only [List.getD_cons_zero, List.getD_cons_succ]
  rw [u32be_recombine s hs, u32be_recombine m hm]
  rw [Nat.mod_eq_of_lt (by omega : pt < 256)]

/-- The native-string byte count recovered from a built RPSI packet is
the group count. -/
theorem rpsiUsedBytes_build (s m pt pid : Nat)
    (hgb : rpsiGroupCount pid ≤ 16000) :
    rpsiUsedBytes (rpsiBuildBytes s m pt pid) = rpsiGroupCount pid := by
  have hg1 : 1 ≤ rpsiGroupCount pid := by
    unfold rpsiGroupCount
    omega
  have hpb3 : rpsiPaddingBytes pid ≤ 3 := by
    unfold rpsiPaddingBytes
    omega
  have hpb4 : (2 + rpsiGroupCount pid + rpsiPaddingBytes pid) % 4 = 0 := by
    unfold rpsiPaddingBytes
    omega
  have hL : (rpsiNativeString pid).length = rpsiGroupCount pid :=
    rpsiNativeString_length pid
  rw [rpsiBuildBytes_eq, hL]
  generalize hpbdef : rpsiPaddingBytes pid = pb at hpb3 hpb4 ⊢
  generalize hgdef : rpsiGroupCount pid = g at hg1 hgb hpb4 ⊢
  unfold rpsiUsedBytes
  simp only [u32be, List.cons_append, List.nil_append, List.getD_cons_zero,
    List.getD_cons_succ]
  omega

/-- `getD` at the written index. -/
theorem getD_set_self (l : List Nat) (i v : Nat) (h : i < l.length) :
    (l.set i v).getD i 0 = v := by
  rw [List.getD_eq_getElem?_getD, List.getElem?_set_eq h]
  rfl

/-- `getD` away from the written index. -/
theorem getD_set_ne (l : List Nat) (i j v : Nat) (h : i ≠ j) :
    (l.set i v).getD j 0 = l.getD j 0 := by
  rw [List.getD_eq_getElem?_getD, List.getElem?_set_ne h,
    ← List.getD_eq_getElem?_getD]

/-- `getD` after a drop. -/
theorem getD_drop (l : List Nat) (n k : Nat) :
    (l.drop n).getD k 0 = l.getD (n + k) 0 := by
  rw [List.getD_eq_getElem?_getD, List.getElem?_drop,
    ← List.getD_eq_getElem?_getD]

/-- A write beyond the dropped prefix survives the drop, shifted. -/
theorem set_drop_comm (l : List Nat) (n k v : Nat) :
    (l.set (n + k) v).drop n = (l.drop n).set k v := by
  apply List.ext_getElem?
  intro j
  rw [List.getElem?_drop, List.getElem?_set, List.getElem?_set,
    List.getElem?_drop, List.length_drop]
  by_cases hkj : k = j
  · subst hkj
    rw [if_pos rfl, if_pos rfl]
    by_cases hin : n + k < l.length
    · rw [if_pos hin, if_pos (by omega)]
    · rw [if_neg hin, if_neg (by omega)]
  · rw [if_neg (by omega), if_neg hkj]

/-- A write inside the dropped prefix does not survive the drop. -/
theorem set_drop_of_lt (l : List Nat) (m n v : Nat) (h : m < n) :
    (l.set m v).drop n = l.drop n := by
  apply List.ext_getElem?
  intro j
  rw [List.getElem?_drop, List.getElem?_drop,
    List.getElem?_set_ne (by omega : m ≠ n + j)]

/-- The common-header parse ignores bytes past index 3. -/
theorem parseCommonHeader_set (bytes : List Nat) (i v : Nat) (hi : 4 ≤ i) :
    parseCommonHeader (bytes.set i v) = parseCommonHeader bytes := by
  unfold parseCommonHeader
  rw [List.length_set,
    getD_set_ne bytes i 0 v (by omega),
    getD_set_ne bytes i 1 v (by omega),
    getD_set_ne bytes i 2 v (by omega),
    getD_set_ne bytes i 3 v (by omega)]

/-- Inversion of a successful `rpsiParseBytes`. -/
theorem rpsiParseBytes_some {bytes : List Nat} {r : Rpsi}
    (h : rpsiParseBytes bytes = some r) :
    ∃ hdr, parseCommonHeader bytes = some hdr ∧
      4 + hdr.payload_size_bytes = bytes.length ∧
      rpsiParse hdr (bytes.drop 4) = some r := by
  unfold rpsiParseBytes at h
  cases heq : parseCommonHeader bytes with
  | none =>
      rw [heq] at h
      exact absurd h (by simp)
  | some hdr =>
      rw [heq] at h
      have h2 : (if 4 + hdr.payload_size_bytes = bytes.length then
          rpsiParse hdr (bytes.drop 4) else none) = some r := h
      by_cases hfit : 4 + hdr.payload_size_bytes = bytes.length
      · rw [if_pos hfit] at h2
        exact ⟨hdr, rfl, hfit, h2⟩
      · rw [if_neg hfit] at h2
        exact absurd h2 (by simp)

/-- Inversion of a successful `rpsiParse`: every validation passed and
the native string decoded to the reported picture id. -/
theorem rpsiParse_some {hdr : RtcpCommonHeader} {payload : List Nat}
    {r : Rpsi} (h : rpsiParse hdr payload = some r) :
    10 ≤ hdr.payload_size_bytes ∧
      payload.getD 8 0 % 8 = 0 ∧
      10 + payload.getD 8 0 / 8 < hdr.payload_size_bytes ∧
      payload.getD 8 0 / 8 ≤ 3 ∧
      decodeNativeString 0 ((payload.drop 10).take
        (hdr.payload_size_bytes - 8 - 2 - payload.getD 8 0 / 8)) =
        some r.picture_id := by
  simp only [rpsiParse, kCommonFeedbackLength] at h
  by_cases h1 : hdr.payload_size_bytes < 8 + 2
  · rw [if_pos h1] at h
    exact absurd h (by simp)
  · rw [if_neg h1] at h
    by_cases h2 : payload.getD 8 0 % 8 ≠ 0
    · rw [if_pos h2] at h
      exact absurd h (by simp)
    · rw [if_neg h2] at h
      by_cases h3 : hdr.payload_size_bytes ≤ 8 + 2 + payload.getD 8 0 / 8
      · rw [if_pos h3] at h
        exact absurd h (by simp)
      · rw [if_neg h3] at h
        by_cases h4 : 3 < payload.getD 8 0 / 8
        · rw [if_pos h4] at h
          exact absurd h (by simp)
        · rw [if_neg h4] at h
          cases hdec : decodeNativeString 0 ((payload.drop 10).take
              (hdr.payload_size_bytes - 8 - 2 - payload.getD 8 0 / 8)) with
          | none =>
              rw [hdec] at h
              exact absurd h (by simp)
          | some pid =>
              rw [hdec] at h
              simp only [Option.some.injEq] at h
              refine ⟨by omega, by omega, by omega, by omega, ?_⟩
              rw [← h]

/-- A successful decode forces the terminator to sit on the final byte,
so every proper prefix of the native string fails to decode. -/
theorem decodeNativeString_shorten :
    ∀ (L : List Nat) (acc v : Nat), decodeNativeString acc L = some v →
      ∀ k, k < L.length → ∀ acc2,
        decodeNativeString acc2 (L.take k) = none := by
  intro L
  induction L with
  | nil =>
      intro acc v h
      exact absurd h (by simp [decodeNativeString])
  | cons b rest ih =>
      intro acc v h k hk acc2
      by_cases hb : b < 128
      · rw [decodeNativeString, if_pos hb] at h
        by_cases hrest : rest = []
        · subst hrest
          have hk0 : k = 0 := by simpa using hk
          subst hk0
          rfl
        · rw [if_neg hrest] at h
          exact absurd h (by simp)
      · rw [decodeNativeString_cons_cont _ _ _ hb] at h
        cases k with
        | zero => rfl
        | succ k =>
            rw [List.take_succ_cons,
              decodeNativeString_cons_cont _ _ _ hb]
            exact ih _ v h k (by simpa using hk) _

/-- A failed flush loop never wrote into the caller's buffer. -/
theorem flushLoop_false (bl ml : Nat) (sink : List Nat → Bool) :
    ∀ fuel st st1, flushLoop bl ml sink fuel st = some (false, st1) →
      st1.buf = st.buf := by
  intro fuel
  induction fuel with
  | zero =>
      intro st st1 h
      exact absurd h (by simp [flushLoop])
  | succ fuel ih =>
      intro st st1 h
      rw [flushLoop] at h
      by_cases hc : st.index + bl > ml
      · rw [if_pos hc] at h
        by_cases hs : sink (st.buf.take st.index)
        · rw [if_pos hs] at h
          exact ih ⟨st.buf, 0, st.flushed ++ [st.buf.take st.index]⟩ st1 h
        · rw [if_neg hs] at h
          simp only [Option.some.injEq, Prod.mk.injEq] at h
          rw [← h.2]
      · rw [if_neg hc] at h
        simp at h

/-- A successful flush loop ends with the block fitting, the buffer
untouched, and the cursor either untouched (no flush) or reset to 0
(flushed); when the block fitted from the start, the state is untouched. -/
theorem flushLoop_true (bl ml : Nat) (sink : List Nat → Bool) :
    ∀ fuel st st1, flushLoop bl ml sink fuel st = some (true, st1) →
      st1.index + bl ≤ ml ∧ st1.buf = st.buf ∧
        (st1 = st ∨ st1.index = 0) ∧
        (st.index + bl ≤ ml → st1 = st) := by
  intro fuel
  induction fuel with
  | zero =>
      intro st st1 h
      exact absurd h (by simp [flushLoop])
  | succ fuel ih =>
      intro st st1 h
      rw [flushLoop] at h
      by_cases hc : st.index + bl > ml
      · rw [if_pos hc] at h
        by_cases hs : sink (st.buf.take st.index)
        · rw [if_pos hs] at h
          obtain ⟨ha, hb, hcor, _⟩ := ih _ _ h
          refine ⟨ha, hb, Or.inr ?_, fun hfit => absurd hfit (by omega)⟩
          rcases hcor with he | hz
          · rw [he]
          · exact hz
        · rw [if_neg hs] at h
          simp at h
      · rw [if_neg hc] at h
        simp only [Option.some.injEq, Prod.mk.injEq, true_and] at h
        subst h
        exact ⟨by omega, rfl, Or.inl rfl, fun _ => rfl⟩

/-- The write loop advances the cursor by 8 bytes per request. -/
theorem writeFci_snd :
    ∀ (items : List FirRequest) (buf : List Nat) (index : Nat),
      (writeFci items buf index).2 = index + 8 * items.length := by
  intro items
  induction items with
  | nil =>
      intro buf index
      simp [writeFci]
  | cons r rest ih =>
      intro buf index
      rw [writeFci, ih]
      simp only [kFciLength, List.length_cons]
      ring

/-- The write loop produces one contiguous write of the FCI block. -/
theorem writeFci_fst :
    ∀ (items : List FirRequest) (buf : List Nat) (index : Nat),
      (writeFci items buf index).1 = writeBytes buf index (fciBlock items) := by
  intro items
  induction items with
  | nil =>
      intro buf index
      rfl
  | cons r rest ih =>
      intro buf index
      rw [writeFci, ih, fciBlock, writeBytes_append]
      rw [show (fciBytes r).length = kFciLength from by simp [fciBytes, u32be, kFciLength]]

/-- One FCI record serializes to 8 bytes. -/
theorem fciBytes_length (r : FirRequest) : (fciBytes r).length = 8 := by
  simp [fciBytes, u32be]

/-- The FCI block serializes to 8 bytes per request. -/
theorem fciBlock_length :
    ∀ items : List FirRequest, (fciBlock items).length = 8 * items.length := by
  intro items
  induction items with
  | nil => rfl
  | cons r rest ih =>
      rw [fciBlock]
      simp only [List.length_append, fciBytes_length, ih, List.length_cons]
      ring

/-- The write phase always succeeds and writes exactly one block at the
cursor. -/
theorem CreateWrite_eq (f : Fir) (st : BufState) :
    f.CreateWrite st = some (true,
      ⟨writeBytes (writeBytes (writeBytes st.buf st.index
          [128 + kFirFeedbackMessageType, kFirPacketType,
           f.HeaderLength / 256 % 256, f.HeaderLength % 256])
          (st.index + kHeaderLength)
          (u32be f.sender_ssrc ++ u32be f.media_ssrc))
          (st.index + kHeaderLength + kCommonFeedbackLength)
          (fciBlock f.items),
        st.index + f.BlockLength, st.flushed⟩) := by
  simp only [Fir.CreateWrite]
  rw [writeFci_fst, writeFci_snd]
  rw [if_pos (by
    unfold Fir.BlockLength kHeaderLength kCommonFeedbackLength kFciLength
    ring)]
  simp only [Option.some.injEq, Prod.mk.injEq, BufState.mk.injEq, true_and,
    and_true]
  unfold Fir.BlockLength kHeaderLength kCommonFeedbackLength kFciLength
  ring

/-- A built FIR packet is the header, the feedback prefix, and the FCI
block, concatenated. -/
theorem firBuildBytes_eq (f : Fir) (hne : f.items ≠ [])
    (hm : ¬ f.media_ssrc ≠ 0) :
    firBuildBytes f =
      [128 + kFirFeedbackMessageType, kFirPacketType,
        f.HeaderLength / 256 % 256, f.HeaderLength % 256] ++
      (u32be f.sender_ssrc ++ u32be f.media_ssrc) ++ fciBlock f.items := by
  have hfl : flushLoop f.BlockLength f.BlockLength (fun _ => false) 1
      ⟨List.replicate f.BlockLength 0, 0, []⟩ =
      some (true, ⟨List.replicate f.BlockLength 0, 0, []⟩) := by
    rw [flushLoop]
    rw [if_neg (by simp)]
  have hcr : Fir.Create f ⟨List.replicate f.BlockLength 0, 0, []⟩
      f.BlockLength (fun _ => false) 1 =
      f.CreateWrite ⟨List.replicate f.BlockLength 0, 0, []⟩ := by
    unfold Fir.Create
    rw [if_neg hne, if_neg hm, hfl]
  unfold firBuildBytes
  rw [hcr, CreateWrite_eq]
  show writeBytes (writeBytes (writeBytes (List.replicate f.BlockLength 0) 0
      [128 + kFirFeedbackMessageType, kFirPacketType,
       f.HeaderLength / 256 % 256, f.HeaderLength % 256])
      (0 + kHeaderLength) (u32be f.sender_ssrc ++ u32be f.media_ssrc))
      (0 + kHeaderLength + kCommonFeedbackLength) (fciBlock f.items) = _
  rw [show (0 : Nat) + kHeaderLength =
      0 + ([128 + kFirFeedbackMessageType, kFirPacketType,
        f.HeaderLength / 256 % 256, f.HeaderLength % 256] : List Nat).length
      from by simp [kHeaderLength]]
  rw [← writeBytes_append]
  rw [show (0 : Nat) + ([128 + kFirFeedbackMessageType, kFirPacketType,
        f.HeaderLength / 256 % 256, f.HeaderLength % 256] : List Nat).length
        + kCommonFeedbackLength =
      0 + (([128 + kFirFeedbackMessageType, kFirPacketType,
        f.HeaderLength / 256 % 256, f.HeaderLength % 256] ++
        (u32be f.sender_ssrc ++ u32be f.media_ssrc)) : List Nat).length
      from by simp [kCommonFeedbackLength, u32be]]
  rw [← writeBytes_append]
  apply writeBytes_full
  simp only [List.length_replicate, List.length_append, u32be,
    List.length_cons, List.length_nil, fciBlock_length]
  unfold Fir.BlockLength kHeaderLength kCommonFeedbackLength kFciLength
  omega

/-- Reading FCI records back from the serialized FCI block after an
arbitrary prefix recovers the request list. -/
theorem readFci_fciBlock :
    ∀ (items : List FirRequest) (pre : List Nat),
      (∀ r ∈ items, r.ssrc < 2 ^ 32 ∧ r.seq_nr < 256) →
      readFci (pre ++ fciBlock items) items.length pre.length = items := by
  intro items
  induction items with
  | nil =>
      intro pre h
      rfl
  | cons r rest ih =>
      intro pre h
      obtain ⟨rs, rq⟩ := r
      have hr : rs < 2 ^ 32 ∧ rq < 256 := h ⟨rs, rq⟩ (by simp)
      rw [List.length_cons, readFci]
      congr 1
      · have hexp : fciBlock (⟨rs, rq⟩ :: rest) =
            rs / 2 ^ 24 % 256 :: rs / 2 ^ 16 % 256 :: rs / 2 ^ 8 % 256 ::
            rs % 256 :: rq % 256 :: 0 :: 0 :: 0 :: fciBlock rest := rfl
        have hg : ∀ k, (pre ++ fciBlock (⟨rs, rq⟩ :: rest)).getD
            (pre.length + k) 0 = (fciBlock (⟨rs, rq⟩ :: rest)).getD k 0 :=
          fun k => getD_append_len pre _ k
        have hg0 : (pre ++ fciBlock (⟨rs, rq⟩ :: rest)).getD pre.length 0 =
            (fciBlock (⟨rs, rq⟩ :: rest)).getD 0 0 := by
          have hh := hg 0
          rwa [Nat.add_zero] at hh
        unfold readU32
        rw [hg0, hg 1, hg 2, hg 3, hg 4, hexp]
        simp only [FirRequest.mk.injEq]
        constructor
        · simp
          omega
        · simp
          omega
      · have hassoc : pre ++ fciBlock (⟨rs, rq⟩ :: rest) =
            (pre ++ fciBytes ⟨rs, rq⟩) ++ fciBlock rest := by
          rw [fciBlock, ← List.append_assoc]
        have hlen : pre.length + kFciLength =
            (pre ++ fciBytes ⟨rs, rq⟩).length := by
          simp [fciBytes, u32be, kFciLength]
        rw [hassoc, hlen]
        exact ih (pre ++ fciBytes ⟨rs, rq⟩)
          (fun r hr2 => h r (List.mem_cons_of_mem _ hr2))

/-! ## Claim theorems -/

/-- C1. RPSI round-trip: for every `picture_id` in
`{0, 1, 0x41, 0x81, 0x106143, u64::MAX}` and every 7-bit `payload_type`,
parsing the packet produced by `Build` recovers the same `picture_id`,
and the native-string portion of the built packet occupies exactly
`ceil(bit_length(picture_id)/7)` bytes with a minimum of 1 byte:
1 byte for `0`, `1` and `0x41`, 2 for `0x81`, 3 for `0x106143`,
10 for `u64::MAX`. -/
theorem c1_rpsi_roundtrip (pt : Nat) (hpt : pt < 128) :
    ((rpsiParseBytes (rpsiBuildBytes 0x12345678 0x23456789 pt 0)).map
        Rpsi.picture_id = some 0 ∧
      (rpsiParseBytes (rpsiBuildBytes 0x12345678 0x23456789 pt 1)).map
        Rpsi.picture_id = some 1 ∧
      (rpsiParseBytes (rpsiBuildBytes 0x12345678 0x23456789 pt 0x41)).map
        Rpsi.picture_id = some 0x41 ∧
      (rpsiParseBytes (rpsiBuildBytes 0x12345678 0x23456789 pt 0x81)).map
        Rpsi.picture_id = some 0x81 ∧
      (rpsiParseBytes (rpsiBuildBytes 0x12345678 0x23456789 pt 0x106143)).map
        Rpsi.picture_id = some 0x106143 ∧
      (rpsiParseBytes
          (rpsiBuildBytes 0x12345678 0x23456789 pt (2 ^ 64 - 1))).map
        Rpsi.picture_id = some (2 ^ 64 - 1)) ∧
    (rpsiUsedBytes (rpsiBuildBytes 0x12345678 0x23456789 pt 0) = 1 ∧
      rpsiUsedBytes (rpsiBuildBytes 0x12345678 0x23456789 pt 1) = 1 ∧
      rpsiUsedBytes (rpsiBuildBytes 0x12345678 0x23456789 pt 0x41) = 1 ∧
      rpsiUsedBytes (rpsiBuildBytes 0x12345678 0x23456789 pt 0x81) = 2 ∧
      rpsiUsedBytes (rpsiBuildBytes 0x12345678 0x23456789 pt 0x106143) = 3 ∧
      rpsiUsedBytes (rpsiBuildBytes 0x12345678 0x23456789 pt (2 ^ 64 - 1))
        = 10) := by
  refine ⟨⟨?_, ?_, ?_, ?_, ?_, ?_⟩, ?_, ?_, ?_, ?_, ?_, ?_⟩ <;>
    first
      | (rw [rpsiParseBytes_build _ _ _ _ (by norm_num) (by norm_num) hpt
            (by decide)]; rfl)
      | (rw [rpsiUsedBytes_build _ _ _ _ (by decide)]; decide)

/-- Witness for C1 at `payload_type = 100`. -/
theorem c1_rpsi_roundtrip_witness :
    (rpsiParseBytes (rpsiBuildBytes 0x12345678 0x23456789 100 0x106143)).map
        Rpsi.picture_id = some 0x106143 ∧
      rpsiUsedBytes (rpsiBuildBytes 0x12345678 0x23456789 100 (2 ^ 64 - 1))
        = 10 :=
  ⟨(c1_rpsi_roundtrip 100 (by decide)).1.2.2.2.2.1,
   (c1_rpsi_roundtrip 100 (by decide)).2.2.2.2.2.2⟩

/-- C2. RPSI parse rejects fractional padding: for every wire packet
that parses successfully (hence whose padding-bit-count byte, byte 12,
is a multiple of 8), adding any of 1..7 to that byte makes the parse
fail. -/
theorem c2_rpsi_fractional_padding (bytes : List Nat) (r : Rpsi) (i : Nat)
    (hr : rpsiParseBytes bytes = some r) (hi1 : 1 ≤ i) (hi7 : i ≤ 7) :
    rpsiParseBytes (bytes.set 12 (bytes.getD 12 0 + i)) = none := by
  obtain ⟨hdr, hph, hfit, hpp⟩ := rpsiParseBytes_some hr
  obtain ⟨hps10, hmod8, hlt, hpb3, _⟩ := rpsiParse_some hpp
  have hb12 : (bytes.drop 4).getD 8 0 = bytes.getD 12 0 :=
    getD_drop bytes 4 8
  rw [hb12] at hmod8 hlt hpb3
  unfold rpsiParseBytes
  rw [parseCommonHeader_set bytes 12 _ (by omega), hph]
  have hfit2 : 4 + hdr.payload_size_bytes =
      (bytes.set 12 (bytes.getD 12 0 + i)).length := by
    rw [List.length_set]
    exact hfit
  show (if 4 + hdr.payload_size_bytes =
      (bytes.set 12 (bytes.getD 12 0 + i)).length then
    rpsiParse hdr ((bytes.set 12 (bytes.getD 12 0 + i)).drop 4) else none) =
    none
  rw [if_pos hfit2]
  have hd : (bytes.set 12 (bytes.getD 12 0 + i)).drop 4 =
      (bytes.drop 4).set 8 (bytes.getD 12 0 + i) :=
    set_drop_comm bytes 4 8 (bytes.getD 12 0 + i)
  rw [hd]
  have hlen8 : 8 < (bytes.drop 4).length := by
    rw [List.length_drop]
    omega
  simp only [rpsiParse, kCommonFeedbackLength]
  rw [if_neg (by omega : ¬ hdr.payload_size_bytes < 8 + 2)]
  rw [getD_set_self _ 8 _ hlen8]
  rw [if_pos (by omega : (bytes.getD 12 0 + i) % 8 ≠ 0)]

/-- Witness for C2: bumping the padding byte of the golden built RPSI
packet by 1 makes parsing fail. -/
theorem c2_rpsi_fractional_padding_witness :
    rpsiParseBytes ((rpsiBuildBytes 0x12345678 0x23456789 100 0x106143).set
      12 ((rpsiBuildBytes 0x12345678 0x23456789 100 0x106143).getD 12 0 + 1))
      = none :=
  c2_rpsi_fractional_padding _ ⟨0x12345678, 0x23456789, 100, 0x106143⟩ 1
    (by decide) (by decide) (by decide)

/-- C3. RPSI parse rejects padding inconsistent with the declared
length: (a) whenever the content-byte count
`payload_size_bytes - 8 - 2 - padding_bits/8` is zero or negative, or
`padding_bits/8` exceeds 3, the parse fails; (b) increasing the
padding-bit-count byte of a successfully-parsing packet by 8 makes the
parse fail. -/
theorem c3_rpsi_inconsistent_padding :
    (∀ (header : RtcpCommonHeader) (payload : List Nat),
        (header.payload_size_bytes ≤ 10 + payload.getD 8 0 / 8 ∨
          3 < payload.getD 8 0 / 8) →
        rpsiParse header payload = none) ∧
    (∀ (bytes : List Nat) (r : Rpsi), rpsiParseBytes bytes = some r →
        rpsiParseBytes (bytes.set 12 (bytes.getD 12 0 + 8)) = none) := by
  constructor
  · intro header payload hcond
    simp only [rpsiParse, kCommonFeedbackLength]
    by_cases h1 : header.payload_size_bytes < 8 + 2
    · rw [if_pos h1]
    · rw [if_neg h1]
      by_cases h2 : payload.getD 8 0 % 8 ≠ 0
      · rw [if_pos h2]
      · rw [if_neg h2]
        by_cases h3 : header.payload_size_bytes ≤
            8 + 2 + payload.getD 8 0 / 8
        · rw [if_pos h3]
        · rw [if_neg h3]
          rw [if_pos (by omega : 3 < payload.getD 8 0 / 8)]
  · intro bytes r hr
    obtain ⟨hdr, hph, hfit, hpp⟩ := rpsiParseBytes_some hr
    obtain ⟨hps10, hmod8, hlt, hpb3, hdec⟩ := rpsiParse_some hpp
    have hb12 : (bytes.drop 4).getD 8 0 = bytes.getD 12 0 :=
      getD_drop bytes 4 8
    rw [hb12] at hmod8 hlt hpb3 hdec
    unfold rpsiParseBytes
    rw [parseCommonHeader_set bytes 12 _ (by omega), hph]
    have hfit2 : 4 + hdr.payload_size_bytes =
        (bytes.set 12 (bytes.getD 12 0 + 8)).length := by
      rw [List.length_set]
      exact hfit
    show (if 4 + hdr.payload_size_bytes =
        (bytes.set 12 (bytes.getD 12 0 + 8)).length then
      rpsiParse hdr ((bytes.set 12 (bytes.getD 12 0 + 8)).drop 4) else none) =
      none
    rw [if_pos hfit2]
    have hd : (bytes.set 12 (bytes.getD 12 0 + 8)).drop 4 =
        (bytes.drop 4).set 8 (bytes.getD 12 0 + 8) :=
      set_drop_comm bytes 4 8 (bytes.getD 12 0 + 8)
    rw [hd]
    have hlen8 : 8 < (bytes.drop 4).length := by
      rw [List.length_drop]
      omega
    simp only [rpsiParse, kCommonFeedbackLength]
    rw [if_neg (by omega : ¬ hdr.payload_size_bytes < 8 + 2)]
    rw [getD_set_self _ 8 _ hlen8]
    rw [if_neg (by omega : ¬ (bytes.getD 12 0 + 8) % 8 ≠ 0)]
    by_cases hc1 : hdr.payload_size_bytes ≤
        8 + 2 + (bytes.getD 12 0 + 8) / 8
    · rw [if_pos hc1]
    · rw [if_neg hc1]
      by_cases hc2 : 3 < (bytes.getD 12 0 + 8) / 8
      · rw [if_pos hc2]
      · rw [if_neg hc2]
        have hdiv : (bytes.getD 12 0 + 8) / 8 = bytes.getD 12 0 / 8 + 1 := by
          omega
        rw [hdiv] at hc1 hc2 ⊢
        have hdrop : ((bytes.drop 4).set 8 (bytes.getD 12 0 + 8)).drop 10 =
            (bytes.drop 4).drop 10 :=
          set_drop_of_lt _ 8 10 _ (by omega)
        rw [hdrop]
        have hcontent : hdr.payload_size_bytes - 8 - 2 -
            (bytes.getD 12 0 / 8 + 1) =
            hdr.payload_size_bytes - 8 - 2 - bytes.getD 12 0 / 8 - 1 := by
          omega
        rw [hcontent]
        have hLlen : hdr.payload_size_bytes - 8 - 2 - bytes.getD 12 0 / 8 ≤
            ((bytes.drop 4).drop 10).length := by
          simp only [List.length_drop]
          omega
        have htake : ((bytes.drop 4).drop 10).take
            (hdr.payload_size_bytes - 8 - 2 - bytes.getD 12 0 / 8 - 1) =
            (((bytes.drop 4).drop 10).take
              (hdr.payload_size_bytes - 8 - 2 - bytes.getD 12 0 / 8)).take
              (hdr.payload_size_bytes - 8 - 2 - bytes.getD 12 0 / 8 - 1) := by
          rw [List.take_take]
          congr 1
          omega
        rw [htake]
        have hklt : hdr.payload_size_bytes - 8 - 2 - bytes.getD 12 0 / 8 - 1 <
            (((bytes.drop 4).drop 10).take
              (hdr.payload_size_bytes - 8 - 2 - bytes.getD 12 0 / 8)).length := by
          rw [List.length_take]
          omega
        rw [decodeNativeString_shorten _ 0 r.picture_id hdec _ hklt 0]

/-- Witness for C3: a header/payload with `padding_bits/8 = 4` is
rejected, and bumping the padding byte of a small built packet by 8 is
rejected. -/
theorem c3_rpsi_inconsistent_padding_witness :
    rpsiParse ⟨2, false, 3, 206, 16⟩
        [0, 0, 0, 0, 0, 0, 0, 0, 32, 0, 0, 0, 0, 0, 0, 0] = none ∧
      rpsiParseBytes ((rpsiBuildBytes 0x12345678 0x23456789 100 1).set 12
        ((rpsiBuildBytes 0x12345678 0x23456789 100 1).getD 12 0 + 8)) =
        none :=
  ⟨c3_rpsi_inconsistent_padding.1 ⟨2, false, 3, 206, 16⟩
      [0, 0, 0, 0, 0, 0, 0, 0, 32, 0, 0, 0, 0, 0, 0, 0]
      (Or.inr (by decide)),
    c3_rpsi_inconsistent_padding.2 _ ⟨0x12345678, 0x23456789, 100, 1⟩
      (by decide)⟩

/-- C8. FIR golden wire bytes: the literal 20-byte FIR packet with one
request parses into the expected value, and building that value
reproduces the identical bytes (packet type 205, format 4). -/
theorem c8_fir_golden_wire_bytes :
    firParseBytes [0x84, 205, 0x00, 0x04, 0x12, 0x34, 0x56, 0x78,
        0, 0, 0, 0, 0x23, 0x45, 0x67, 0x89, 0x60, 0, 0, 0] =
      some ⟨0x12345678, 0, [⟨0x23456789, 0x60⟩]⟩ ∧
    firBuildBytes ⟨0x12345678, 0, [⟨0x23456789, 0x60⟩]⟩ =
      [0x84, 205, 0x00, 0x04, 0x12, 0x34, 0x56, 0x78,
        0, 0, 0, 0, 0x23, 0x45, 0x67, 0x89, 0x60, 0, 0, 0] := by
  constructor <;> decide

/-- Two payloads agreeing on four bytes read the same 32-bit word. -/
theorem readU32_agree (p1 p2 : List Nat) (pos : Nat)
    (h : ∀ j < 4, p1.getD (pos + j) 0 = p2.getD (pos + j) 0) :
    readU32 p1 pos = readU32 p2 pos := by
  unfold readU32
  have h0 := h 0 (by omega)
  have h1 := h 1 (by omega)
  have h2 := h 2 (by omega)
  have h3 := h 3 (by omega)
  rw [Nat.add_zero] at h0
  rw [h0, h1, h2, h3]

/-- Two payloads agreeing on the SSRC and sequence-number bytes of each
slot decode the same request list. -/
theorem readFci_agree (p1 p2 : List Nat) :
    ∀ n pos, (∀ i < n, ∀ j < 5,
        p1.getD (pos + 8 * i + j) 0 = p2.getD (pos + 8 * i + j) 0) →
      readFci p1 n pos = readFci p2 n pos := by
  intro n
  induction n with
  | zero =>
      intro pos h
      rfl
  | succ n ih =>
      intro pos h
      have etail : ∀ i < n, ∀ j < 5,
          p1.getD (pos + 8 + 8 * i + j) 0 = p2.getD (pos + 8 + 8 * i + j) 0 := by
        intro i hi j hj
        have hh := h (i + 1) (by omega) j hj
        have harith : pos + 8 * (i + 1) + j = pos + 8 + 8 * i + j := by ring
        rwa [harith] at hh
      have hhead : ∀ j < 4, p1.getD (pos + j) 0 = p2.getD (pos + j) 0 := by
        intro j hj
        have hh := h 0 (by omega) j (by omega)
        simpa using hh
      have hseq : p1.getD (pos + 4) 0 = p2.getD (pos + 4) 0 := by
        have hh := h 0 (by omega) 4 (by omega)
        simpa using hh
      rw [readFci, readFci]
      simp only [kFciLength]
      rw [ih (pos + 8) etail, readU32_agree p1 p2 pos hhead, hseq]

/-- C10. Reserved FCI bytes are not validated: two FIR payloads that
agree on the 8-byte prefix and on the first 5 bytes (SSRC + sequence
number) of every FCI slot parse identically, whatever their 3 reserved
bytes hold. -/
theorem c10_fir_reserved_bytes_ignored (f : Fir)
    (header : RtcpCommonHeader) (p1 p2 : List Nat)
    (hpre : ∀ j < 8, p1.getD j 0 = p2.getD j 0)
    (hfci : ∀ i < (header.payload_size_bytes - 8) / 8, ∀ j < 5,
      p1.getD (8 + 8 * i + j) 0 = p2.getD (8 + 8 * i + j) 0) :
    Fir.Parse f header p1 = Fir.Parse f header p2 := by
  unfold Fir.Parse
  by_cases h1 : header.packet_type ≠ kFirPacketType
  · rw [if_pos h1, if_pos h1]
  · rw [if_neg h1, if_neg h1]
    by_cases h2 : header.count_or_format ≠ kFirFeedbackMessageType
    · rw [if_pos h2, if_pos h2]
    · rw [if_neg h2, if_neg h2]
      by_cases h3 : header.payload_size_bytes <
          kCommonFeedbackLength + kFciLength
      · rw [if_pos h3, if_pos h3]
      · rw [if_neg h3, if_neg h3]
        by_cases h4 : (header.payload_size_bytes - kCommonFeedbackLength) %
            kFciLength ≠ 0
        · rw [if_pos h4, if_pos h4]
        · rw [if_neg h4, if_neg h4]
          have hs0 : readU32 p1 0 = readU32 p2 0 := by
            refine readU32_agree p1 p2 0 ?_
            intro j hj
            simpa using hpre j (by omega)
          have hs4 : readU32 p1 4 = readU32 p2 4 := by
            refine readU32_agree p1 p2 4 ?_
            intro j hj
            exact hpre (4 + j) (by omega)
          have hfr : readFci p1
              ((header.payload_size_bytes - kCommonFeedbackLength) /
                kFciLength) kCommonFeedbackLength =
              readFci p2
              ((header.payload_size_bytes - kCommonFeedbackLength) /
                kFciLength) kCommonFeedbackLength := by
            refine readFci_agree p1 p2 _ _ ?_
            intro i hi j hj
            exact hfci i (by simpa [kCommonFeedbackLength, kFciLength]
              using hi) j hj
          rw [hs0, hs4]
          simp only [hfr]

/-- Witness for C10: two concrete one-request payloads differing only in
the three reserved bytes parse to the same result. -/
theorem c10_fir_reserved_bytes_ignored_witness :
    Fir.Parse ⟨0, 0, []⟩ ⟨2, false, 4, 205, 16⟩
        [1, 2, 3, 4, 0, 0, 0, 0, 9, 9, 9, 9, 7, 0, 0, 0] =
      Fir.Parse ⟨0, 0, []⟩ ⟨2, false, 4, 205, 16⟩
        [1, 2, 3, 4, 0, 0, 0, 0, 9, 9, 9, 9, 7, 255, 254, 253] :=
  c10_fir_reserved_bytes_ignored ⟨0, 0, []⟩ ⟨2, false, 4, 205, 16⟩
    [1, 2, 3, 4, 0, 0, 0, 0, 9, 9, 9, 9, 7, 0, 0, 0]
    [1, 2, 3, 4, 0, 0, 0, 0, 9, 9, 9, 9, 7, 255, 254, 253]
    (by decide) (by decide)

/-- C6. CompoundPacketWriter forward progress: a successful `Fir::Create`
leaves the cursor exactly past the newly written block — equal to the
cursor at the start of the write plus `BlockLength()`; when no flush was
needed (the block fit at the initial cursor), the cursor advanced from
its previous value by exactly the block length. -/
theorem c6_fir_create_forward_progress (f : Fir) (st : BufState)
    (maxLength : Nat) (sink : List Nat → Bool) (fuel : Nat) (st1 : BufState)
    (h : f.Create st maxLength sink fuel = some (true, st1)) :
    (st.index + f.BlockLength ≤ maxLength →
      st1.index = st.index + f.BlockLength) ∧
    (st1.index = st.index + f.BlockLength ∨ st1.index = f.BlockLength) := by
  unfold Fir.Create at h
  by_cases he : f.items = []
  · rw [if_pos he] at h
    exact absurd h (by simp)
  · rw [if_neg he] at h
    by_cases hmm : f.media_ssrc ≠ 0
    · rw [if_pos hmm] at h
      exact absurd h (by simp)
    · rw [if_neg hmm] at h
      cases hl : flushLoop f.BlockLength maxLength sink fuel st with
      | none =>
          rw [hl] at h
          exact absurd h (by simp)
      | some p =>
          obtain ⟨b, st2⟩ := p
          rw [hl] at h
          cases b with
          | false =>
              have h2 : (some (false, st2) : Option (Bool × BufState)) =
                  some (true, st1) := h
              simp at h2
          | true =>
              have h2 : f.CreateWrite st2 = some (true, st1) := h
              rw [CreateWrite_eq] at h2
              simp only [Option.some.injEq, Prod.mk.injEq, true_and] at h2
              obtain ⟨hfitle, -, hcor, hfit⟩ :=
                flushLoop_true _ _ _ _ _ _ hl
              have hidx : st1.index = st2.index + f.BlockLength := by
                rw [← h2]
              constructor
              · intro hfits
                rw [hidx, hfit hfits]
              · rcases hcor with he2 | hz
                · left
                  rw [hidx, he2]
                · right
                  rw [hidx, hz]
                  omega

/-- Witness for C6: a concrete one-request `Fir::Create` into an exactly
block-sized fresh buffer ends with the cursor at the block length. -/
theorem c6_fir_create_forward_progress_witness :
    ((0 : Nat) + (Fir.BlockLength ⟨1, 0, [⟨2, 3⟩]⟩) ≤ 20 →
      (⟨[132, 205, 0, 4, 0, 0, 0, 1, 0, 0, 0, 0, 0, 0, 0, 2, 3, 0, 0, 0],
        20, []⟩ : BufState).index =
        (0 : Nat) + Fir.BlockLength ⟨1, 0, [⟨2, 3⟩]⟩) ∧
    ((⟨[132, 205, 0, 4, 0, 0, 0, 1, 0, 0, 0, 0, 0, 0, 0, 2, 3, 0, 0, 0],
        20, []⟩ : BufState).index =
        (0 : Nat) + Fir.BlockLength ⟨1, 0, [⟨2, 3⟩]⟩ ∨
      (⟨[132, 205, 0, 4, 0, 0, 0, 1, 0, 0, 0, 0, 0, 0, 0, 2, 3, 0, 0, 0],
        20, []⟩ : BufState).index = Fir.BlockLength ⟨1, 0, [⟨2, 3⟩]⟩) :=
  c6_fir_create_forward_progress ⟨1, 0, [⟨2, 3⟩]⟩
    ⟨List.replicate 20 0, 0, []⟩ 20 (fun _ => false) 1
    ⟨[132, 205, 0, 4, 0, 0, 0, 1, 0, 0, 0, 0, 0, 0, 0, 2, 3, 0, 0, 0],
      20, []⟩ (by decide)

/-- C7. Sink-failure atomicity: when `Fir::Create` fails because the
buffer-full sink reported failure, no byte of the new block was written
into the caller's buffer — the buffer is exactly as it was. -/
theorem c7_fir_create_sink_failure_atomic (f : Fir) (st : BufState)
    (maxLength : Nat) (sink : List Nat → Bool) (fuel : Nat) (st1 : BufState)
    (h : f.Create st maxLength sink fuel = some (false, st1)) :
    st1.buf = st.buf := by
  unfold Fir.Create at h
  by_cases he : f.items = []
  · rw [if_pos he] at h
    exact absurd h (by simp)
  · rw [if_neg he] at h
    by_cases hmm : f.media_ssrc ≠ 0
    · rw [if_pos hmm] at h
      exact absurd h (by simp)
    · rw [if_neg hmm] at h
      cases hl : flushLoop f.BlockLength maxLength sink fuel st with
      | none =>
          rw [hl] at h
          exact absurd h (by simp)
      | some p =>
          obtain ⟨b, st2⟩ := p
          rw [hl] at h
          cases b with
          | false =>
              have h2 : (some (false, st2) : Option (Bool × BufState)) =
                  some (false, st1) := h
              simp only [Option.some.injEq, Prod.mk.injEq, true_and] at h2
              rw [← h2]
              exact flushLoop_false _ _ _ _ _ _ hl
          | true =>
              have h2 : f.CreateWrite st2 = some (false, st1) := h
              rw [CreateWrite_eq] at h2
              simp at h2

/-- Witness for C7: with an always-failing sink and a zero-capacity
buffer, `Fir::Create` fails and the caller's buffer is unchanged. -/
theorem c7_fir_create_sink_failure_atomic_witness :
    (⟨[], 0, []⟩ : BufState).buf = (⟨[], 0, []⟩ : BufState).buf :=
  c7_fir_create_sink_failure_atomic ⟨1, 0, [⟨2, 3⟩]⟩ ⟨[], 0, []⟩ 0
    (fun _ => false) 1 ⟨[], 0, []⟩ (by decide)

/-- C4. FIR round-trip: for every FirPacket with a non-empty request
list (well-formed fields, media SSRC 0 as FIR requires), parsing the
bytes produced by `Fir::Create` yields the original packet — same sender
SSRC and the same request list in the same order, duplicates
preserved. -/
theorem c4_fir_roundtrip (f : Fir) (hne : f.items ≠ [])
    (hm : f.media_ssrc = 0) (hs : f.sender_ssrc < 2 ^ 32)
    (hitems : ∀ r ∈ f.items, r.ssrc < 2 ^ 32 ∧ r.seq_nr < 256)
    (hcount : f.items.length < 16000) :
    firParseBytes (firBuildBytes f) = some f := by
  obtain ⟨s, m, items⟩ := f
  dsimp only at hne hm hs hitems hcount
  subst hm
  have hn1 : 0 < items.length := List.length_pos.mpr hne
  rw [firBuildBytes_eq ⟨s, 0, items⟩ hne (by simp)]
  have hhl : Fir.HeaderLength ⟨s, 0, items⟩ = 2 + 2 * items.length := by
    unfold Fir.HeaderLength Fir.BlockLength kHeaderLength
      kCommonFeedbackLength kFciLength
    dsimp only
    omega
  rw [hhl]
  have hClen : (fciBlock items).length = 8 * items.length :=
    fciBlock_length items
  have hb23 : (2 + 2 * items.length) / 256 % 256 * 256 +
      (2 + 2 * items.length) % 256 = 2 + 2 * items.length := by
    omega
  have hsender : Fir.sender_ssrc ⟨s, 0, items⟩ = s := rfl
  have hmedia : Fir.media_ssrc ⟨s, 0, items⟩ = 0 := rfl
  have hitems2 : Fir.items ⟨s, 0, items⟩ = items := rfl
  rw [hsender, hmedia, hitems2]
  have hhdr : parseCommonHeader
      ([128 + kFirFeedbackMessageType, kFirPacketType,
        (2 + 2 * items.length) / 256 % 256, (2 + 2 * items.length) % 256] ++
        (u32be s ++ u32be 0) ++ fciBlock items) =
      some ⟨2, false, 4, 205, 8 + 8 * items.length⟩ := by
    unfold parseCommonHeader
    simp only [kFirFeedbackMessageType, kFirPacketType, u32be,
      List.cons_append, List.nil_append, List.length_cons,
      List.length_append, List.getD_cons_zero, List.getD_cons_succ, hClen]
    rw [hb23]
    split_ifs with h1 h2 h3
    · omega
    · norm_num at h2
    · omega
    · simp only [Option.some.injEq, RtcpCommonHeader.mk.injEq]
      norm_num
      omega
  unfold firParseBytes
  rw [hhdr]
  simp only [kFirFeedbackMessageType, kFirPacketType, u32be,
    List.cons_append, List.nil_append, List.length_cons,
    List.length_append, hClen]
  rw [if_pos (by omega)]
  simp only [List.drop_succ_cons, List.drop_zero]
  have hret : Fir.Parse ⟨0, 0, []⟩ ⟨2, false, 4, 205, 8 + 8 * items.length⟩
      (([s / 2 ^ 24 % 256, s / 2 ^ 16 % 256, s / 2 ^ 8 % 256, s % 256] ++
        [0 / 2 ^ 24 % 256, 0 / 2 ^ 16 % 256, 0 / 2 ^ 8 % 256, 0 % 256]) ++
        fciBlock items) = some (⟨s, 0, items⟩, true) := by
    unfold Fir.Parse
    rw [if_neg (by simp [kFirPacketType])]
    rw [if_neg (by simp [kFirFeedbackMessageType])]
    rw [if_neg (by simp only [kCommonFeedbackLength, kFciLength]; omega)]
    rw [if_neg (by simp only [kCommonFeedbackLength, kFciLength]; omega)]
    simp only [kCommonFeedbackLength, kFciLength]
    have hru0 : readU32
        (([s / 2 ^ 24 % 256, s / 2 ^ 16 % 256, s / 2 ^ 8 % 256, s % 256] ++
          [0 / 2 ^ 24 % 256, 0 / 2 ^ 16 % 256, 0 / 2 ^ 8 % 256, 0 % 256]) ++
          fciBlock items) 0 = s := by
      simp [readU32]
      omega
    have hru4 : readU32
        (([s / 2 ^ 24 % 256, s / 2 ^ 16 % 256, s / 2 ^ 8 % 256, s % 256] ++
          [0 / 2 ^ 24 % 256, 0 / 2 ^ 16 % 256, 0 / 2 ^ 8 % 256, 0 % 256]) ++
          fciBlock items) 4 = 0 := by
      simp [readU32]
    have hfcieq : readFci
        (([s / 2 ^ 24 % 256, s / 2 ^ 16 % 256, s / 2 ^ 8 % 256, s % 256] ++
          [0 / 2 ^ 24 % 256, 0 / 2 ^ 16 % 256, 0 / 2 ^ 8 % 256, 0 % 256]) ++
          fciBlock items) items.length 8 = items := by
      have h8 : (8 : Nat) =
          (([s / 2 ^ 24 % 256, s / 2 ^ 16 % 256, s / 2 ^ 8 % 256, s % 256] ++
            [0 / 2 ^ 24 % 256, 0 / 2 ^ 16 % 256, 0 / 2 ^ 8 % 256, 0 % 256]) :
            List Nat).length := by
        simp
      rw [h8]
      exact readFci_fciBlock items _ hitems
    have hn : (8 + 8 * items.length - 8) / 8 = items.length := by omega
    rw [hn, hru0, hru4, hfcieq]
  rw [show (s / 2 ^ 24 % 256 :: s / 2 ^ 16 % 256 :: s / 2 ^ 8 % 256 ::
      s % 256 :: 0 / 2 ^ 24 % 256 :: 0 / 2 ^ 16 % 256 :: 0 / 2 ^ 8 % 256 ::
      0 % 256 :: fciBlock items : List Nat) =
    ([s / 2 ^ 24 % 256, s / 2 ^ 16 % 256, s / 2 ^ 8 % 256, s % 256] ++
      [0 / 2 ^ 24 % 256, 0 / 2 ^ 16 % 256, 0 / 2 ^ 8 % 256, 0 % 256]) ++
      fciBlock items from by simp]
  rw [hret]

/-- Witness for C4: a concrete two-request FIR (with one duplicate
target) round-trips through build and parse. -/
theorem c4_fir_roundtrip_witness :
    firParseBytes (firBuildBytes ⟨0x12345678, 0, [⟨7, 9⟩, ⟨7, 9⟩]⟩) =
      some ⟨0x12345678, 0, [⟨7, 9⟩, ⟨7, 9⟩]⟩ :=
  c4_fir_roundtrip ⟨0x12345678, 0, [⟨7, 9⟩, ⟨7, 9⟩]⟩ (by decide) rfl
    (by norm_num) (by decide) (by decide)

/-- C5. FIR parse length validation: once the packet type and format
checks pass, `Fir::Parse` never crashes, and it succeeds iff the payload
is at least 16 bytes and the FCI region is an exact multiple of 8. -/
theorem c5_fir_parse_length_validation (f : Fir) (header : RtcpCommonHeader)
    (payload : List Nat) (hpt : header.packet_type = kFirPacketType)
    (hfmt : header.count_or_format = kFirFeedbackMessageType) :
    (Fir.Parse f header payload).isSome ∧
      ((∃ f1, Fir.Parse f header payload = some (f1, true)) ↔
        (16 ≤ header.payload_size_bytes ∧
          (header.payload_size_bytes - 8) % 8 = 0)) := by
  unfold Fir.Parse
  rw [hpt, hfmt]
  simp only [kCommonFeedbackLength, kFciLength]
  rw [if_neg (by simp), if_neg (by simp)]
  by_cases h1 : header.payload_size_bytes < 8 + 8
  · rw [if_pos h1]
    refine ⟨rfl, ?_, ?_⟩
    · rintro ⟨f1, hf⟩
      have := congrArg (fun p => p.2) (Option.some.inj hf)
      simp at this
    · rintro ⟨hge, _⟩
      omega
  · rw [if_neg h1]
    by_cases h2 : (header.payload_size_bytes - 8) % 8 = 0
    · rw [if_neg (by simpa using h2)]
      refine ⟨rfl, ?_, ?_⟩
      · intro _
        exact ⟨by omega, h2⟩
      · intro _
        exact ⟨_, rfl⟩
    · rw [if_pos (by simpa using h2)]
      refine ⟨rfl, ?_, ?_⟩
      · rintro ⟨f1, hf⟩
        have := congrArg (fun p => p.2) (Option.some.inj hf)
        simp at this
      · rintro ⟨_, hmod⟩
        exact absurd hmod h2

/-- Witness for C5 at a concrete valid header. -/
theorem c5_fir_parse_length_validation_witness :
    (Fir.Parse ⟨0, 0, []⟩ ⟨2, false, 4, 205, 16⟩
        (List.replicate 16 0)).isSome ∧
      ((∃ f1, Fir.Parse ⟨0, 0, []⟩ ⟨2, false, 4, 205, 16⟩
          (List.replicate 16 0) = some (f1, true)) ↔
        (16 ≤ (16 : Nat) ∧ ((16 : Nat) - 8) % 8 = 0)) :=
  c5_fir_parse_length_validation ⟨0, 0, []⟩ ⟨2, false, 4, 205, 16⟩
    (List.replicate 16 0) rfl rfl

/-- C9. A failing `Fir::Parse` (a length-validation `return false`)
leaves the packet object exactly as it was: both rejections happen before
any field is written. -/
theorem c9_fir_parse_failure_preserves (f f1 : Fir)
    (header : RtcpCommonHeader) (payload : List Nat)
    (h : Fir.Parse f header payload = some (f1, false)) : f1 = f := by
  unfold Fir.Parse at h
  split_ifs at h <;> simp_all

/-- Witness for C9: a too-short FIR payload leaves the object unchanged. -/
theorem c9_fir_parse_failure_preserves_witness :
    (⟨7, 8, [⟨9, 10⟩]⟩ : Fir) = ⟨7, 8, [⟨9, 10⟩]⟩ :=
  c9_fir_parse_failure_preserves ⟨7, 8, [⟨9, 10⟩]⟩ ⟨7, 8, [⟨9, 10⟩]⟩
    ⟨2, false, 4, 205, 12⟩ (List.replicate 12 0) rfl

end Rtcp
